import Mathlib

/-!
Shallow embedding of `src/lib/git-diff-view.js` (class `GitDiffView`).

The class keeps a list of decoration markers (`this.markers`) in sync with
the hunks of the git diff of one editor's buffer (`this.diffs`), and offers
cursor navigation between hunks.  JS numbers that hold line/row counts are
modelled as `Int` (all arithmetic in the file is integer arithmetic on
small values, far from any floating-point rounding).  The editor's cursor
is modelled by its row only: the only cursor mutations in the file are
`setCursorBufferPosition([lineNumber, 0])` followed by
`moveToFirstCharacterOfLine()`, which changes the column, never the row.
-/

/-- One element of `this.diffs`, as built in `updateDiffs`
(lines 158-164): `{newStart, oldLines, newLines}`. -/
structure Diff where
  newStart : Int
  oldLines : Int
  newLines : Int
deriving DecidableEq

/-- A hunk of the `filePatch` returned by `repository.getFilePatchForPath`,
exposing `getNewStartRow()`, `getOldRowCount()`, `getNewRowCount()`. -/
structure Hunk where
  newStartRow : Int
  oldRowCount : Int
  newRowCount : Int
deriving DecidableEq

/-- The truthy result of `repository.getFilePatchForPath`, exposing
`getHunks()`.  A `null` result is modelled as `Option.none` at the use
site. -/
structure FilePatch where
  hunks : List Hunk
deriving DecidableEq

/-- A marker created by `markRange` (lines 190-196): the buffer range
`[[startRow, 0], [endRow, 0]]` together with the `class` of the
`line-number` decoration attached to it. -/
structure Marker where
  startRow : Int
  endRow : Int
  klass : String
deriving DecidableEq

/-- The mutable state of one `GitDiffView`:
`markers` is `this.markers`; `destroyedMarkers` logs every marker on which
`marker.destroy()` has been called; `diffs` is `this.diffs`
(`none` while still `undefined`); `cursorRow` is the row of
`this.editor.getCursorBufferPosition()`. -/
structure ViewState where
  markers : List Marker
  destroyedMarkers : List Marker
  diffs : Option (List Diff)
  cursorRow : Int
deriving DecidableEq

/-- `'git-line-added'` (line 174). -/
def addedClass : String := "git-line-added"

/-- `'git-line-removed'` (line 176). -/
def removedClass : String := "git-line-removed"

/-- `'git-line-modified'` (line 178). -/
def modifiedClass : String := "git-line-modified"

/-- `markRange(startRow, endRow, klass)` (lines 190-196): create one marker
over `[[startRow, 0], [endRow, 0]]`, decorate it with `klass`, and push it
onto `this.markers`. -/
def markRange (startRow endRow : Int) (klass : String) (s : ViewState) : ViewState :=
  { s with markers := s.markers ++ [⟨startRow, endRow, klass⟩] }

/-- `addDecorations(diffs)` (lines 169-181), translated branch for branch:
for each diff, `startRow = newStart - 1`, `endRow = newStart + newLines - 1`,
and one `markRange` call chosen by the `oldLines`/`newLines` tests. -/
def addDecorations (diffs : List Diff) (s : ViewState) : ViewState :=
  diffs.foldl
    (fun st d =>
      let startRow := d.newStart - 1
      let endRow := d.newStart + d.newLines - 1
      if d.oldLines = 0 ∧ 0 < d.newLines then
        markRange startRow endRow addedClass st
      else if d.newLines = 0 ∧ 0 < d.oldLines then
        markRange startRow startRow removedClass st
      else
        markRange startRow endRow modifiedClass st)
    s

/-- `removeDecorations()` (lines 183-188): destroy every tracked marker,
then reset `this.markers` to `[]`. -/
def removeDecorations (s : ViewState) : ViewState :=
  { s with markers := [], destroyedMarkers := s.destroyedMarkers ++ s.markers }

/-- The row span an Atom `line-number` decoration actually highlights for a
marker whose buffer range is `[[startRow, 0], [endRow, 0]]`.  Modelled from
Atom's documented `decorateMarker` semantics, the external collaborator of
`markRange`: a `line`/`line-number` decoration covers every buffer row the
marker touches, except that with the default `omitEmptyLastRow: true` the
last row is omitted when the range is non-empty but ends at column 0.  So a
non-empty range `[[r1, 0], [r2, 0]]` highlights rows `r1 .. r2 - 1`, and an
empty range `[[r, 0], [r, 0]]` highlights the single row `r`. -/
def decoratedSpan (m : Marker) : Int × Int :=
  if m.startRow < m.endRow then (m.startRow, m.endRow - 1) else (m.startRow, m.endRow)

/-- `moveToLineNumber(lineNumber)` (lines 126-131), with `null` as `none`:
only a non-null, non-negative line number moves the cursor. -/
def moveToLineNumber (lineNumber : Option Int) (s : ViewState) : ViewState :=
  match lineNumber with
  | some n => if 0 ≤ n then { s with cursorRow := n } else s
  | none => s

/-- The `null`-aware running minimum used twice in the `moveToNextDiff`
loop: `if (acc == null) { acc = v; } acc = Math.min(v, acc);`
(lines 68-71 and 74-77 of the source, with `null` as `none`). -/
def minAcc (acc : Option Int) (v : Int) : Option Int :=
  some (min v (acc.getD v))

/-- The body of the `moveToNextDiff` loop (lines 66-78): the first
component is `nextDiffLineNumber` (only updated when
`newStart > cursorLineNumber`), the second is `firstDiffLineNumber`
(always updated). -/
def nextDiffStep (cursorLineNumber : Int) (acc : Option Int × Option Int) (d : Diff) :
    Option Int × Option Int :=
  (if cursorLineNumber < d.newStart then minAcc acc.1 (d.newStart - 1) else acc.1,
   minAcc acc.2 (d.newStart - 1))

/-- `moveToNextDiff()` (lines 59-86).  `!this.diffs` is true exactly when
`this.diffs` is still `undefined` (an empty array is truthy in JS), so only
`none` short-circuits.  `cursorLineNumber` is the cursor row plus one; a
`null` `nextDiffLineNumber` falls back to `firstDiffLineNumber` (wrap to
the first diff in the file). -/
def moveToNextDiff (s : ViewState) : ViewState :=
  match s.diffs with
  | none => s
  | some diffs =>
    let cursorLineNumber := s.cursorRow + 1
    let acc := diffs.foldl (nextDiffStep cursorLineNumber) (none, none)
    moveToLineNumber (match acc.1 with | none => acc.2 | some v => some v) s

/-- The body of the `moveToPreviousDiff` loop (lines 111-116): the first
component is `previousDiffLineNumber` (only updated when
`newStart < cursorLineNumber`), the second is `lastDiffLineNumber`
(always updated); both use `Math.max` and start at the sentinel `-1`. -/
def prevDiffStep (cursorLineNumber : Int) (acc : Int × Int) (d : Diff) : Int × Int :=
  (if d.newStart < cursorLineNumber then max (d.newStart - 1) acc.1 else acc.1,
   max (d.newStart - 1) acc.2)

/-- `moveToPreviousDiff()` (lines 104-124).  Same shape as `moveToNextDiff`
but with `-1` as the sentinel instead of `null`: a sentinel `-1`
`previousDiffLineNumber` falls back to `lastDiffLineNumber` (wrap to the
last diff in the file). -/
def moveToPreviousDiff (s : ViewState) : ViewState :=
  match s.diffs with
  | none => s
  | some diffs =>
    let cursorLineNumber := s.cursorRow + 1
    let acc := diffs.foldl (prevDiffStep cursorLineNumber) (-1, -1)
    moveToLineNumber (some (if acc.1 = -1 then acc.2 else acc.1)) s

/-- The environment `updateDiffs` reads before its `await`:
`this.editor.isDestroyed()`, `this.editor.getPath()` (`undefined` as
`none`), and `this.getActiveRepository()` with its `isLoading()` /
`isPresent()` answers and the `filePatch` its `getFilePatchForPath` call
would resolve to (`null`/falsy as `none`). -/
structure Repository where
  isLoading : Bool
  isPresent : Bool
  fetchResult : Option FilePatch
deriving DecidableEq

/-- The collaborators consulted by one `updateDiffs` run. -/
structure Env where
  editorDestroyed : Bool
  path : Option String
  repository : Option Repository
deriving DecidableEq

/-- JS truth value of `!path` for `path = this.editor.getPath()`:
`undefined` and the empty string are falsy. -/
def pathFalsy : Option String → Bool
  | none => true
  | some p => p == ""

/-- The continuation of `updateDiffs` after
`await repository.getFilePatchForPath(...)` resolves (lines 154-166):
`removeDecorations()`, then, only when `filePatch` is truthy, rebuild
`this.diffs` from the patch's hunks and `addDecorations(this.diffs)`.
There is no staleness or destroyed check in this continuation. -/
def updateDiffsPhase2 (filePatch : Option FilePatch) (s : ViewState) : ViewState :=
  let s1 := removeDecorations s
  match filePatch with
  | some fp =>
      let diffs := fp.hunks.map (fun h => Diff.mk h.newStartRow h.oldRowCount h.newRowCount)
      addDecorations diffs { s1 with diffs := some diffs }
  | none => s1

/-- One full `updateDiffs()` run (lines 142-167) in which the `await`
resolves without interleaving: the guard
`this.editor.isDestroyed() || !path || !repository || repository.isLoading()
|| !repository.isPresent()` short-circuits to `removeDecorations()` and
`return`; otherwise the fetch is performed and `updateDiffsPhase2` applies
its result.  The returned `Bool` records whether the fetch was attempted. -/
def updateDiffs (env : Env) (s : ViewState) : ViewState × Bool :=
  let guard := env.editorDestroyed || pathFalsy env.path ||
    (match env.repository with
     | none => true
     | some r => r.isLoading || !r.isPresent)
  if guard then
    (removeDecorations s, false)
  else
    (updateDiffsPhase2 ((env.repository.map Repository.fetchResult).getD none) s, true)

/-- The body of the `onDidDestroy` subscription (lines 15-21) as it acts on
the view state: `cancelUpdate()` touches only the scheduler,
`removeDecorations()` destroys all markers, and `subscriptions.dispose()`
releases subscriptions (not part of this state). -/
def onEditorDestroyed (s : ViewState) : ViewState :=
  removeDecorations s

/-! ### The marker created for one diff -/

/-- The single marker one iteration of the `addDecorations` loop pushes:
the branch on `oldLines`/`newLines` selects range and class exactly as in
lines 170-179. -/
def markerOf (d : Diff) : Marker :=
  if d.oldLines = 0 ∧ 0 < d.newLines then
    ⟨d.newStart - 1, d.newStart + d.newLines - 1, addedClass⟩
  else if d.newLines = 0 ∧ 0 < d.oldLines then
    ⟨d.newStart - 1, d.newStart - 1, removedClass⟩
  else
    ⟨d.newStart - 1, d.newStart + d.newLines - 1, modifiedClass⟩

lemma addDecorations_eq (l : List Diff) (s : ViewState) :
    addDecorations l s = { s with markers := s.markers ++ l.map markerOf } := by
  induction l generalizing s with
  | nil => simp [addDecorations]
  | cons d l ih =>
    have hstep : addDecorations (d :: l) s =
        addDecorations l { s with markers := s.markers ++ [markerOf d] } := by
      simp only [addDecorations, List.foldl_cons]
      by_cases h1 : d.oldLines = 0 ∧ 0 < d.newLines
      · simp [markRange, markerOf, h1]
      · by_cases h2 : d.newLines = 0 ∧ 0 < d.oldLines
        · simp [markRange, markerOf, h1, h2]
        · simp [markRange, markerOf, h1, h2]
    rw [hstep, ih]
    simp

/-! ### C1, C2: decoration span and classification -/

lemma decoratedSpan_mk (a b : Int) (k : String) :
    decoratedSpan ⟨a, b, k⟩ = if a < b then (a, b - 1) else (a, b) := rfl

lemma added_ne_removed : addedClass ≠ removedClass := by decide

lemma added_ne_modified : addedClass ≠ modifiedClass := by decide

lemma removed_ne_modified : removedClass ≠ modifiedClass := by decide

/-- **C1.**  For every well-formed hunk (counts not both zero), the marker
`addDecorations` creates for it starts at row `startRow = newStart - 1`; if
`newLines > 0` (added or modified) its decorated span is the rows
`startRow .. startRow + newLines - 1`, and if `newLines = 0` (pure removal)
its decorated span is the single row `startRow`. -/
theorem c1_decoration_span (s : ViewState) (l : List Diff) (d : Diff) (hd : d ∈ l)
    (hn : 0 ≤ d.newLines) (hwf : ¬(d.oldLines = 0 ∧ d.newLines = 0)) :
    (addDecorations l s).markers = s.markers ++ l.map markerOf ∧
    (markerOf d).startRow = d.newStart - 1 ∧
    (0 < d.newLines →
      decoratedSpan (markerOf d) = (d.newStart - 1, (d.newStart - 1) + d.newLines - 1)) ∧
    (d.newLines = 0 →
      decoratedSpan (markerOf d) = (d.newStart - 1, d.newStart - 1)) := by
  refine ⟨by rw [addDecorations_eq], ?_, ?_, ?_⟩
  · simp only [markerOf]
    split_ifs <;> rfl
  · intro hpos
    simp only [markerOf]
    split_ifs with h1 h2 <;>
      rw [decoratedSpan_mk] <;> split_ifs <;> simp only [Prod.mk.injEq, true_and] <;> omega
  · intro hzero
    simp only [markerOf]
    split_ifs with h1 h2 <;>
      rw [decoratedSpan_mk] <;> split_ifs <;> simp only [Prod.mk.injEq, true_and] <;> omega

/-- Witness for C1 at the added hunk `{newStart: 5, oldLines: 0,
newLines: 3}` from an empty view state: its decorated span is rows 4..6. -/
theorem c1_decoration_span_witness :
    ((⟨5, 0, 3⟩ : Diff) ∈ [(⟨5, 0, 3⟩ : Diff)] ∧ (0 : Int) ≤ (3 : Int) ∧
      ¬((0 : Int) = 0 ∧ (3 : Int) = 0)) ∧
    ((addDecorations [⟨5, 0, 3⟩] ⟨[], [], none, 0⟩).markers =
        ([] : List Marker) ++ [(⟨5, 0, 3⟩ : Diff)].map markerOf ∧
      (markerOf ⟨5, 0, 3⟩).startRow = (5 : Int) - 1 ∧
      ((0 : Int) < (3 : Int) →
        decoratedSpan (markerOf ⟨5, 0, 3⟩) = ((5 : Int) - 1, ((5 : Int) - 1) + 3 - 1)) ∧
      ((3 : Int) = 0 →
        decoratedSpan (markerOf ⟨5, 0, 3⟩) = ((5 : Int) - 1, (5 : Int) - 1))) :=
  ⟨⟨by decide, by decide, by decide⟩,
    c1_decoration_span ⟨[], [], none, 0⟩ [⟨5, 0, 3⟩] ⟨5, 0, 3⟩ (by decide) (by decide)
      (by decide)⟩

/-- **C2.**  For every hunk with nonnegative counts that are not both zero,
the class of the marker created for it is `git-line-added` exactly when
`oldLines = 0 ∧ newLines > 0`, `git-line-removed` exactly when
`newLines = 0 ∧ oldLines > 0`, and `git-line-modified` exactly when both
counts are positive. -/
theorem c2_classification (s : ViewState) (l : List Diff) (d : Diff) (hd : d ∈ l)
    (ho : 0 ≤ d.oldLines) (hn : 0 ≤ d.newLines)
    (hwf : ¬(d.oldLines = 0 ∧ d.newLines = 0)) :
    (addDecorations l s).markers = s.markers ++ l.map markerOf ∧
    ((markerOf d).klass = addedClass ↔ (d.oldLines = 0 ∧ 0 < d.newLines)) ∧
    ((markerOf d).klass = removedClass ↔ (d.newLines = 0 ∧ 0 < d.oldLines)) ∧
    ((markerOf d).klass = modifiedClass ↔ (0 < d.oldLines ∧ 0 < d.newLines)) := by
  refine ⟨by rw [addDecorations_eq], ?_⟩
  simp only [markerOf]
  split_ifs with h1 h2
  · exact ⟨iff_of_true rfl h1, iff_of_false (fun h => added_ne_removed h) (by omega),
      iff_of_false (fun h => added_ne_modified h) (by omega)⟩
  · exact ⟨iff_of_false (fun h => added_ne_removed h.symm) (by omega), iff_of_true rfl h2,
      iff_of_false (fun h => removed_ne_modified h) (by omega)⟩
  · exact ⟨iff_of_false (fun h => added_ne_modified h.symm) (by omega),
      iff_of_false (fun h => removed_ne_modified h.symm) (by omega),
      iff_of_true rfl (by omega)⟩

/-- Witness for C2 at the modified hunk `{newStart: 5, oldLines: 2,
newLines: 2}`: its marker's class is `git-line-modified` and not the other
two. -/
theorem c2_classification_witness :
    ((⟨5, 2, 2⟩ : Diff) ∈ [(⟨5, 2, 2⟩ : Diff)] ∧ (0 : Int) ≤ (2 : Int) ∧
      (0 : Int) ≤ (2 : Int) ∧ ¬((2 : Int) = 0 ∧ (2 : Int) = 0)) ∧
    ((addDecorations [⟨5, 2, 2⟩] ⟨[], [], none, 0⟩).markers =
        ([] : List Marker) ++ [(⟨5, 2, 2⟩ : Diff)].map markerOf ∧
      ((markerOf ⟨5, 2, 2⟩).klass = addedClass ↔ ((2 : Int) = 0 ∧ (0 : Int) < 2)) ∧
      ((markerOf ⟨5, 2, 2⟩).klass = removedClass ↔ ((2 : Int) = 0 ∧ (0 : Int) < 2)) ∧
      ((markerOf ⟨5, 2, 2⟩).klass = modifiedClass ↔ ((0 : Int) < 2 ∧ (0 : Int) < 2))) :=
  ⟨⟨by decide, by decide, by decide, by decide⟩,
    c2_classification ⟨[], [], none, 0⟩ [⟨5, 2, 2⟩] ⟨5, 2, 2⟩ (by decide) (by decide)
      (by decide) (by decide)⟩

/-! ### C3, C4: hunk navigation -/

/-- `nextDiffLineNumber` as a function of the diff list: the guarded
running minimum of the first component of the `moveToNextDiff` loop. -/
def nextCandMin (c : Int) (l : List Diff) (acc : Option Int) : Option Int :=
  l.foldl (fun a d => if c < d.newStart then minAcc a (d.newStart - 1) else a) acc

/-- `firstDiffLineNumber` as a function of the diff list: the unconditional
running minimum of the second component of the `moveToNextDiff` loop. -/
def allMin (l : List Diff) (acc : Option Int) : Option Int :=
  l.foldl (fun a d => minAcc a (d.newStart - 1)) acc

lemma nextDiffFold_eq (c : Int) (l : List Diff) (a b : Option Int) :
    l.foldl (nextDiffStep c) (a, b) = (nextCandMin c l a, allMin l b) := by
  induction l generalizing a b with
  | nil => rfl
  | cons d l ih =>
    simp only [List.foldl_cons, nextCandMin, allMin, nextDiffStep]
    exact ih _ _

lemma allMin_some_spec : ∀ (l : List Diff) (a m : Int), allMin l (some a) = some m →
    (m = a ∨ ∃ d ∈ l, d.newStart - 1 = m) ∧ m ≤ a ∧ ∀ d ∈ l, m ≤ d.newStart - 1 := by
  intro l
  induction l with
  | nil =>
    intro a m h
    simp only [allMin, List.foldl_nil, Option.some.injEq] at h
    subst h
    exact ⟨Or.inl rfl, le_refl a, by simp⟩
  | cons d l ih =>
    intro a m h
    have h' : allMin l (some (min (d.newStart - 1) a)) = some m := by
      simpa [allMin, List.foldl_cons, minAcc] using h
    obtain ⟨hm, hle, hall⟩ := ih _ _ h'
    refine ⟨?_, by omega, ?_⟩
    · rcases hm with h1 | ⟨d', hd', hv⟩
      · rcases min_choice (d.newStart - 1) a with hc | hc
        · exact Or.inr ⟨d, List.mem_cons_self _ _, by omega⟩
        · exact Or.inl (by omega)
      · exact Or.inr ⟨d', List.mem_cons_of_mem _ hd', hv⟩
    · intro d' hd'
      rcases List.mem_cons.mp hd' with rfl | hmem
      · omega
      · exact hall _ hmem

lemma allMin_some_isSome : ∀ (l : List Diff) (a : Int), ∃ m, allMin l (some a) = some m := by
  intro l
  induction l with
  | nil => intro a; exact ⟨a, rfl⟩
  | cons d l ih =>
    intro a
    obtain ⟨m, hm⟩ := ih (min (d.newStart - 1) a)
    exact ⟨m, by simpa [allMin, List.foldl_cons, minAcc] using hm⟩

lemma allMin_none_spec (l : List Diff) (m : Int) (h : allMin l none = some m) :
    (∃ d ∈ l, d.newStart - 1 = m) ∧ ∀ d ∈ l, m ≤ d.newStart - 1 := by
  cases l with
  | nil => simp [allMin] at h
  | cons d l =>
    have h' : allMin l (some (d.newStart - 1)) = some m := by
      simpa [allMin, List.foldl_cons, minAcc] using h
    obtain ⟨hm, hle, hall⟩ := allMin_some_spec l _ _ h'
    refine ⟨?_, ?_⟩
    · rcases hm with h1 | ⟨d', hd', hv⟩
      · exact ⟨d, List.mem_cons_self _ _, h1.symm⟩
      · exact ⟨d', List.mem_cons_of_mem _ hd', hv⟩
    · intro d' hd'
      rcases List.mem_cons.mp hd' with rfl | hmem
      · exact hle
      · exact hall _ hmem

lemma nextCandMin_no_cand (c : Int) : ∀ (l : List Diff) (a : Option Int),
    (∀ d ∈ l, ¬ c < d.newStart) → nextCandMin c l a = a := by
  intro l
  induction l with
  | nil => intro a _; rfl
  | cons d l ih =>
    intro a h
    have hd : ¬ c < d.newStart := h d (List.mem_cons_self _ _)
    have hstep : nextCandMin c (d :: l) a = nextCandMin c l a := by
      simp [nextCandMin, List.foldl_cons, hd]
    rw [hstep]
    exact ih a (fun d' hd' => h d' (List.mem_cons_of_mem _ hd'))

lemma nextCandMin_some_isSome (c : Int) : ∀ (l : List Diff) (a : Int),
    ∃ m, nextCandMin c l (some a) = some m := by
  intro l
  induction l with
  | nil => intro a; exact ⟨a, rfl⟩
  | cons d l ih =>
    intro a
    by_cases hd : c < d.newStart
    · obtain ⟨m, hm⟩ := ih (min (d.newStart - 1) a)
      exact ⟨m, by simpa [nextCandMin, List.foldl_cons, minAcc, hd] using hm⟩
    · obtain ⟨m, hm⟩ := ih a
      exact ⟨m, by simpa [nextCandMin, List.foldl_cons, hd] using hm⟩

lemma nextCandMin_cand_isSome (c : Int) : ∀ (l : List Diff) (a : Option Int),
    (∃ d ∈ l, c < d.newStart) → ∃ m, nextCandMin c l a = some m := by
  intro l
  induction l with
  | nil => intro a h; simp at h
  | cons d l ih =>
    intro a h
    by_cases hd : c < d.newStart
    · have hsome : ∃ m, nextCandMin c l (minAcc a (d.newStart - 1)) = some m := by
        obtain ⟨m, hm⟩ := nextCandMin_some_isSome c l (min (d.newStart - 1)
          (a.getD (d.newStart - 1)))
        exact ⟨m, by simpa [minAcc] using hm⟩
      obtain ⟨m, hm⟩ := hsome
      exact ⟨m, by simpa [nextCandMin, List.foldl_cons, hd] using hm⟩
    · obtain ⟨d', hd', hq⟩ := h
      rcases List.mem_cons.mp hd' with rfl | hmem
      · exact absurd hq hd
      · obtain ⟨m, hm⟩ := ih a ⟨d', hmem, hq⟩
        exact ⟨m, by simpa [nextCandMin, List.foldl_cons, hd] using hm⟩

lemma nextCandMin_some_spec (c : Int) : ∀ (l : List Diff) (a m : Int),
    nextCandMin c l (some a) = some m →
      (m = a ∨ ∃ d ∈ l, c < d.newStart ∧ d.newStart - 1 = m) ∧ m ≤ a ∧
      ∀ d ∈ l, c < d.newStart → m ≤ d.newStart - 1 := by
  intro l
  induction l with
  | nil =>
    intro a m h
    simp only [nextCandMin, List.foldl_nil, Option.some.injEq] at h
    subst h
    exact ⟨Or.inl rfl, le_refl a, by simp⟩
  | cons d l ih =>
    intro a m h
    by_cases hd : c < d.newStart
    · have h' : nextCandMin c l (some (min (d.newStart - 1) a)) = some m := by
        simpa [nextCandMin, List.foldl_cons, minAcc, hd] using h
      obtain ⟨hm, hle, hall⟩ := ih _ _ h'
      refine ⟨?_, by omega, ?_⟩
      · rcases hm with h1 | ⟨d', hd', hq, hv⟩
        · rcases min_choice (d.newStart - 1) a with hc | hc
          · exact Or.inr ⟨d, List.mem_cons_self _ _, hd, by omega⟩
          · exact Or.inl (by omega)
        · exact Or.inr ⟨d', List.mem_cons_of_mem _ hd', hq, hv⟩
      · intro d' hd' hq
        rcases List.mem_cons.mp hd' with rfl | hmem
        · omega
        · exact hall _ hmem hq
    · have h' : nextCandMin c l (some a) = some m := by
        simpa [nextCandMin, List.foldl_cons, hd] using h
      obtain ⟨hm, hle, hall⟩ := ih _ _ h'
      refine ⟨?_, hle, ?_⟩
      · rcases hm with h1 | ⟨d', hd', hq, hv⟩
        · exact Or.inl h1
        · exact Or.inr ⟨d', List.mem_cons_of_mem _ hd', hq, hv⟩
      · intro d' hd' hq
        rcases List.mem_cons.mp hd' with rfl | hmem
        · exact absurd hq hd
        · exact hall _ hmem hq

lemma nextCandMin_none_spec (c : Int) : ∀ (l : List Diff) (m : Int),
    nextCandMin c l none = some m →
      (∃ d ∈ l, c < d.newStart ∧ d.newStart - 1 = m) ∧
      ∀ d ∈ l, c < d.newStart → m ≤ d.newStart - 1 := by
  intro l
  induction l with
  | nil => intro m h; simp [nextCandMin] at h
  | cons d l ih =>
    intro m h
    by_cases hd : c < d.newStart
    · have h' : nextCandMin c l (some (d.newStart - 1)) = some m := by
        simpa [nextCandMin, List.foldl_cons, minAcc, hd, min_self] using h
      obtain ⟨hm, hle, hall⟩ := nextCandMin_some_spec c l _ _ h'
      refine ⟨?_, ?_⟩
      · rcases hm with h1 | ⟨d', hd', hq, hv⟩
        · exact ⟨d, List.mem_cons_self _ _, hd, h1.symm⟩
        · exact ⟨d', List.mem_cons_of_mem _ hd', hq, hv⟩
      · intro d' hd' hq
        rcases List.mem_cons.mp hd' with rfl | hmem
        · exact hle
        · exact hall _ hmem hq
    · have h' : nextCandMin c l none = some m := by
        simpa [nextCandMin, List.foldl_cons, hd] using h
      obtain ⟨hex, hall⟩ := ih _ h'
      refine ⟨?_, ?_⟩
      · obtain ⟨d', hd', hq, hv⟩ := hex
        exact ⟨d', List.mem_cons_of_mem _ hd', hq, hv⟩
      · intro d' hd' hq
        rcases List.mem_cons.mp hd' with rfl | hmem
        · exact absurd hq hd
        · exact hall _ hmem hq

/-- `previousDiffLineNumber` as a function of the diff list: the guarded
running maximum of the first component of the `moveToPreviousDiff` loop. -/
def prevCandMax (c : Int) (l : List Diff) (acc : Int) : Int :=
  l.foldl (fun a d => if d.newStart < c then max (d.newStart - 1) a else a) acc

/-- `lastDiffLineNumber` as a function of the diff list: the unconditional
running maximum of the second component of the `moveToPreviousDiff` loop. -/
def allMax (l : List Diff) (acc : Int) : Int :=
  l.foldl (fun a d => max (d.newStart - 1) a) acc

lemma prevDiffFold_eq (c : Int) (l : List Diff) (a b : Int) :
    l.foldl (prevDiffStep c) (a, b) = (prevCandMax c l a, allMax l b) := by
  induction l generalizing a b with
  | nil => rfl
  | cons d l ih =>
    simp only [List.foldl_cons, prevCandMax, allMax, prevDiffStep]
    exact ih _ _

lemma allMax_spec : ∀ (l : List Diff) (a : Int),
    (allMax l a = a ∨ ∃ d ∈ l, d.newStart - 1 = allMax l a) ∧ a ≤ allMax l a ∧
    ∀ d ∈ l, d.newStart - 1 ≤ allMax l a := by
  intro l
  induction l with
  | nil => intro a; exact ⟨Or.inl rfl, le_refl a, by simp⟩
  | cons d l ih =>
    intro a
    have hstep : allMax (d :: l) a = allMax l (max (d.newStart - 1) a) := by
      simp [allMax, List.foldl_cons]
    obtain ⟨hm, hle, hall⟩ := ih (max (d.newStart - 1) a)
    rw [hstep]
    refine ⟨?_, by omega, ?_⟩
    · rcases hm with h1 | ⟨d', hd', hv⟩
      · rcases max_choice (d.newStart - 1) a with hc | hc
        · exact Or.inr ⟨d, List.mem_cons_self _ _, by omega⟩
        · exact Or.inl (by omega)
      · exact Or.inr ⟨d', List.mem_cons_of_mem _ hd', hv⟩
    · intro d' hd'
      rcases List.mem_cons.mp hd' with rfl | hmem
      · omega
      · exact hall _ hmem

lemma prevCandMax_spec (c : Int) : ∀ (l : List Diff) (a : Int),
    (prevCandMax c l a = a ∨
      ∃ d ∈ l, d.newStart < c ∧ d.newStart - 1 = prevCandMax c l a) ∧
    a ≤ prevCandMax c l a ∧
    ∀ d ∈ l, d.newStart < c → d.newStart - 1 ≤ prevCandMax c l a := by
  intro l
  induction l with
  | nil => intro a; exact ⟨Or.inl rfl, le_refl a, by simp⟩
  | cons d l ih =>
    intro a
    by_cases hd : d.newStart < c
    · have hstep : prevCandMax c (d :: l) a = prevCandMax c l (max (d.newStart - 1) a) := by
        simp [prevCandMax, List.foldl_cons, hd]
      obtain ⟨hm, hle, hall⟩ := ih (max (d.newStart - 1) a)
      rw [hstep]
      refine ⟨?_, by omega, ?_⟩
      · rcases hm with h1 | ⟨d', hd', hq, hv⟩
        · rcases max_choice (d.newStart - 1) a with hc | hc
          · exact Or.inr ⟨d, List.mem_cons_self _ _, hd, by omega⟩
          · exact Or.inl (by omega)
        · exact Or.inr ⟨d', List.mem_cons_of_mem _ hd', hq, hv⟩
      · intro d' hd' hq
        rcases List.mem_cons.mp hd' with rfl | hmem
        · omega
        · exact hall _ hmem hq
    · have hstep : prevCandMax c (d :: l) a = prevCandMax c l a := by
        simp [prevCandMax, List.foldl_cons, hd]
      obtain ⟨hm, hle, hall⟩ := ih a
      rw [hstep]
      refine ⟨?_, hle, ?_⟩
      · rcases hm with h1 | ⟨d', hd', hq, hv⟩
        · exact Or.inl h1
        · exact Or.inr ⟨d', List.mem_cons_of_mem _ hd', hq, hv⟩
      · intro d' hd' hq
        rcases List.mem_cons.mp hd' with rfl | hmem
        · exact absurd hq hd
        · exact hall _ hmem hq

lemma prevCandMax_no_cand (c : Int) : ∀ (l : List Diff) (a : Int),
    (∀ d ∈ l, ¬ d.newStart < c) → prevCandMax c l a = a := by
  intro l
  induction l with
  | nil => intro a _; rfl
  | cons d l ih =>
    intro a h
    have hd : ¬ d.newStart < c := h d (List.mem_cons_self _ _)
    have hstep : prevCandMax c (d :: l) a = prevCandMax c l a := by
      simp [prevCandMax, List.foldl_cons, hd]
    rw [hstep]
    exact ih a (fun d' hd' => h d' (List.mem_cons_of_mem _ hd'))

lemma moveToNextDiff_eval (s : ViewState) (l : List Diff) (hl : s.diffs = some l) :
    moveToNextDiff s =
      moveToLineNumber
        (match nextCandMin (s.cursorRow + 1) l none with
         | none => allMin l none
         | some v => some v) s := by
  simp only [moveToNextDiff, hl, nextDiffFold_eq]

lemma moveToPreviousDiff_eval (s : ViewState) (l : List Diff) (hl : s.diffs = some l) :
    moveToPreviousDiff s =
      moveToLineNumber
        (some (if prevCandMax (s.cursorRow + 1) l (-1) = -1 then allMax l (-1)
          else prevCandMax (s.cursorRow + 1) l (-1))) s := by
  simp only [moveToPreviousDiff, hl, prevDiffFold_eq]

lemma allMin_none_isSome (l : List Diff) (hne : l ≠ []) : ∃ m, allMin l none = some m := by
  cases l with
  | nil => exact absurd rfl hne
  | cons d l =>
    obtain ⟨m, hm⟩ := allMin_some_isSome l (d.newStart - 1)
    exact ⟨m, by simpa [allMin, List.foldl_cons, minAcc] using hm⟩

/-- **C3.**  Next-hunk navigation: when `this.diffs` holds hunks with
1-based start lines, the cursor moves to the minimum 0-based start line
`newStart - 1` among hunks with `newStart - 1` strictly greater than the
cursor row; when no such hunk exists it wraps to the minimum start line
over all hunks; with an `undefined` or empty hunk sequence the state is
unchanged. -/
theorem c3_next_navigation (s : ViewState) (l : List Diff)
    (hl : s.diffs = some l) (hstart : ∀ d ∈ l, 1 ≤ d.newStart) :
    (∀ t : ViewState, t.diffs = none → moveToNextDiff t = t) ∧
    (l = [] → moveToNextDiff s = s) ∧
    ((∃ d ∈ l, s.cursorRow < d.newStart - 1) →
      (∃ d ∈ l, s.cursorRow < d.newStart - 1 ∧
        (moveToNextDiff s).cursorRow = d.newStart - 1) ∧
      ∀ d ∈ l, s.cursorRow < d.newStart - 1 →
        (moveToNextDiff s).cursorRow ≤ d.newStart - 1) ∧
    (l ≠ [] → (∀ d ∈ l, ¬ s.cursorRow < d.newStart - 1) →
      (∃ d ∈ l, (moveToNextDiff s).cursorRow = d.newStart - 1) ∧
      ∀ d ∈ l, (moveToNextDiff s).cursorRow ≤ d.newStart - 1) := by
  refine ⟨?_, ?_, ?_, ?_⟩
  · intro t ht
    simp [moveToNextDiff, ht]
  · intro hnil
    subst hnil
    rw [moveToNextDiff_eval s [] hl]
    rfl
  · intro hex
    obtain ⟨d0, hd0, hq0⟩ := hex
    have hq0' : s.cursorRow + 1 < d0.newStart := by omega
    obtain ⟨m, hm⟩ := nextCandMin_cand_isSome (s.cursorRow + 1) l none ⟨d0, hd0, hq0'⟩
    obtain ⟨⟨d1, hd1, hq1, hv1⟩, hall⟩ := nextCandMin_none_spec (s.cursorRow + 1) l m hm
    have h0 : (0 : Int) ≤ m := by have := hstart d1 hd1; omega
    have hcursor : (moveToNextDiff s).cursorRow = m := by
      rw [moveToNextDiff_eval s l hl, hm]
      simp [moveToLineNumber, h0]
    refine ⟨⟨d1, hd1, by omega, by rw [hcursor]; omega⟩, ?_⟩
    intro d hd hq
    rw [hcursor]
    exact hall d hd (by omega)
  · intro hne hnone
    have hzero : nextCandMin (s.cursorRow + 1) l none = none := by
      apply nextCandMin_no_cand
      intro d hd
      have := hnone d hd
      omega
    obtain ⟨m, hm⟩ := allMin_none_isSome l hne
    obtain ⟨⟨d1, hd1, hv1⟩, hall⟩ := allMin_none_spec l m hm
    have h0 : (0 : Int) ≤ m := by have := hstart d1 hd1; omega
    have hcursor : (moveToNextDiff s).cursorRow = m := by
      rw [moveToNextDiff_eval s l hl, hzero]
      simp [moveToLineNumber, hm, h0]
    exact ⟨⟨d1, hd1, by rw [hcursor]; omega⟩, fun d hd => by rw [hcursor]; exact hall d hd⟩

/-- The wrap-around example from the spec: 0-based start rows
`[3, 10, 20]` (1-based `newStart` 4, 11, 21) and cursor at row 25: the
next-diff command wraps to row 3. -/
lemma moveToNextDiff_wrap_example :
    (moveToNextDiff ⟨[], [], some [⟨4, 1, 1⟩, ⟨11, 1, 1⟩, ⟨21, 1, 1⟩], 25⟩).cursorRow = 3 := by
  decide

/-- Witness for C3 at hunks with 0-based start rows `[3, 10, 20]` and
cursor row 25 (the spec's wrap-around example). -/
theorem c3_next_navigation_witness :
    ((⟨[], [], some [⟨4, 1, 1⟩, ⟨11, 1, 1⟩, ⟨21, 1, 1⟩], 25⟩ : ViewState).diffs =
        some [⟨4, 1, 1⟩, ⟨11, 1, 1⟩, ⟨21, 1, 1⟩] ∧
      (∀ d ∈ [(⟨4, 1, 1⟩ : Diff), ⟨11, 1, 1⟩, ⟨21, 1, 1⟩], 1 ≤ d.newStart)) ∧
    ((∀ t : ViewState, t.diffs = none → moveToNextDiff t = t) ∧
      ([(⟨4, 1, 1⟩ : Diff), ⟨11, 1, 1⟩, ⟨21, 1, 1⟩] = [] →
        moveToNextDiff ⟨[], [], some [⟨4, 1, 1⟩, ⟨11, 1, 1⟩, ⟨21, 1, 1⟩], 25⟩ =
          ⟨[], [], some [⟨4, 1, 1⟩, ⟨11, 1, 1⟩, ⟨21, 1, 1⟩], 25⟩) ∧
      ((∃ d ∈ [(⟨4, 1, 1⟩ : Diff), ⟨11, 1, 1⟩, ⟨21, 1, 1⟩],
          (⟨[], [], some [⟨4, 1, 1⟩, ⟨11, 1, 1⟩, ⟨21, 1, 1⟩], 25⟩ : ViewState).cursorRow <
            d.newStart - 1) →
        (∃ d ∈ [(⟨4, 1, 1⟩ : Diff), ⟨11, 1, 1⟩, ⟨21, 1, 1⟩],
          (⟨[], [], some [⟨4, 1, 1⟩, ⟨11, 1, 1⟩, ⟨21, 1, 1⟩], 25⟩ : ViewState).cursorRow <
            d.newStart - 1 ∧
          (moveToNextDiff ⟨[], [], some [⟨4, 1, 1⟩, ⟨11, 1, 1⟩, ⟨21, 1, 1⟩], 25⟩).cursorRow =
            d.newStart - 1) ∧
        ∀ d ∈ [(⟨4, 1, 1⟩ : Diff), ⟨11, 1, 1⟩, ⟨21, 1, 1⟩],
          (⟨[], [], some [⟨4, 1, 1⟩, ⟨11, 1, 1⟩, ⟨21, 1, 1⟩], 25⟩ : ViewState).cursorRow <
            d.newStart - 1 →
          (moveToNextDiff ⟨[], [], some [⟨4, 1, 1⟩, ⟨11, 1, 1⟩, ⟨21, 1, 1⟩], 25⟩).cursorRow ≤
            d.newStart - 1) ∧
      ([(⟨4, 1, 1⟩ : Diff), ⟨11, 1, 1⟩, ⟨21, 1, 1⟩] ≠ [] →
        (∀ d ∈ [(⟨4, 1, 1⟩ : Diff), ⟨11, 1, 1⟩, ⟨21, 1, 1⟩],
          ¬ (⟨[], [], some [⟨4, 1, 1⟩, ⟨11, 1, 1⟩, ⟨21, 1, 1⟩], 25⟩ : ViewState).cursorRow <
            d.newStart - 1) →
        (∃ d ∈ [(⟨4, 1, 1⟩ : Diff), ⟨11, 1, 1⟩, ⟨21, 1, 1⟩],
          (moveToNextDiff ⟨[], [], some [⟨4, 1, 1⟩, ⟨11, 1, 1⟩, ⟨21, 1, 1⟩], 25⟩).cursorRow =
            d.newStart - 1) ∧
        ∀ d ∈ [(⟨4, 1, 1⟩ : Diff), ⟨11, 1, 1⟩, ⟨21, 1, 1⟩],
          (moveToNextDiff ⟨[], [], some [⟨4, 1, 1⟩, ⟨11, 1, 1⟩, ⟨21, 1, 1⟩], 25⟩).cursorRow ≤
            d.newStart - 1)) :=
  ⟨⟨rfl, by decide⟩, c3_next_navigation _ _ rfl (by decide)⟩

/-- **C4.**  Previous-hunk navigation: when `this.diffs` holds hunks with
1-based start lines, the cursor moves to the maximum 0-based start line
`newStart - 1` among hunks with `newStart - 1` strictly less than the
cursor row; when no such hunk exists it wraps to the maximum start line
over all hunks; with an `undefined` or empty hunk sequence the state is
unchanged. -/
theorem c4_previous_navigation (s : ViewState) (l : List Diff)
    (hl : s.diffs = some l) (hstart : ∀ d ∈ l, 1 ≤ d.newStart) :
    (∀ t : ViewState, t.diffs = none → moveToPreviousDiff t = t) ∧
    (l = [] → moveToPreviousDiff s = s) ∧
    ((∃ d ∈ l, d.newStart - 1 < s.cursorRow) →
      (∃ d ∈ l, d.newStart - 1 < s.cursorRow ∧
        (moveToPreviousDiff s).cursorRow = d.newStart - 1) ∧
      ∀ d ∈ l, d.newStart - 1 < s.cursorRow →
        d.newStart - 1 ≤ (moveToPreviousDiff s).cursorRow) ∧
    (l ≠ [] → (∀ d ∈ l, ¬ d.newStart - 1 < s.cursorRow) →
      (∃ d ∈ l, (moveToPreviousDiff s).cursorRow = d.newStart - 1) ∧
      ∀ d ∈ l, d.newStart - 1 ≤ (moveToPreviousDiff s).cursorRow) := by
  refine ⟨?_, ?_, ?_, ?_⟩
  · intro t ht
    simp [moveToPreviousDiff, ht]
  · intro hnil
    subst hnil
    rw [moveToPreviousDiff_eval s [] hl]
    rfl
  · intro hex
    obtain ⟨d0, hd0, hq0⟩ := hex
    have hq0' : d0.newStart < s.cursorRow + 1 := by omega
    obtain ⟨hm, hle, hall⟩ := prevCandMax_spec (s.cursorRow + 1) l (-1)
    have hge : d0.newStart - 1 ≤ prevCandMax (s.cursorRow + 1) l (-1) := hall d0 hd0 hq0'
    have h0 : (0 : Int) ≤ prevCandMax (s.cursorRow + 1) l (-1) := by
      have := hstart d0 hd0; omega
    have hP : ¬ prevCandMax (s.cursorRow + 1) l (-1) = -1 := by omega
    have hcursor : (moveToPreviousDiff s).cursorRow = prevCandMax (s.cursorRow + 1) l (-1) := by
      rw [moveToPreviousDiff_eval s l hl, if_neg hP]
      simp [moveToLineNumber, h0]
    rcases hm with h1 | ⟨d1, hd1, hq1, hv1⟩
    · omega
    · refine ⟨⟨d1, hd1, by omega, by rw [hcursor]; omega⟩, ?_⟩
      intro d hd hq
      rw [hcursor]
      exact hall d hd (by omega)
  · intro hne hnone
    have hzero : prevCandMax (s.cursorRow + 1) l (-1) = -1 := by
      apply prevCandMax_no_cand
      intro d hd
      have := hnone d hd
      omega
    obtain ⟨d0, hd0⟩ := List.exists_mem_of_ne_nil l hne
    obtain ⟨hm, hle, hall⟩ := allMax_spec l (-1)
    have hge : d0.newStart - 1 ≤ allMax l (-1) := hall d0 hd0
    have h0 : (0 : Int) ≤ allMax l (-1) := by have := hstart d0 hd0; omega
    have hcursor : (moveToPreviousDiff s).cursorRow = allMax l (-1) := by
      rw [moveToPreviousDiff_eval s l hl, if_pos hzero]
      simp [moveToLineNumber, h0]
    rcases hm with h1 | ⟨d1, hd1, hv1⟩
    · omega
    · exact ⟨⟨d1, hd1, by rw [hcursor]; omega⟩, fun d hd => by rw [hcursor]; exact hall d hd⟩

/-- The wrap-around example from the spec: 0-based start rows
`[3, 10, 20]` and cursor at row 0: the previous-diff command wraps to
row 20. -/
lemma moveToPreviousDiff_wrap_example :
    (moveToPreviousDiff ⟨[], [], some [⟨4, 1, 1⟩, ⟨11, 1, 1⟩, ⟨21, 1, 1⟩], 0⟩).cursorRow = 20 := by
  decide

/-- Witness for C4 at hunks with 0-based start rows `[3, 10, 20]` and
cursor row 0 (the spec's wrap-around example). -/
theorem c4_previous_navigation_witness :
    ((⟨[], [], some [⟨4, 1, 1⟩, ⟨11, 1, 1⟩, ⟨21, 1, 1⟩], 0⟩ : ViewState).diffs =
        some [⟨4, 1, 1⟩, ⟨11, 1, 1⟩, ⟨21, 1, 1⟩] ∧
      (∀ d ∈ [(⟨4, 1, 1⟩ : Diff), ⟨11, 1, 1⟩, ⟨21, 1, 1⟩], 1 ≤ d.newStart)) ∧
    ((∀ t : ViewState, t.diffs = none → moveToPreviousDiff t = t) ∧
      ([(⟨4, 1, 1⟩ : Diff), ⟨11, 1, 1⟩, ⟨21, 1, 1⟩] = [] →
        moveToPreviousDiff ⟨[], [], some [⟨4, 1, 1⟩, ⟨11, 1, 1⟩, ⟨21, 1, 1⟩], 0⟩ =
          ⟨[], [], some [⟨4, 1, 1⟩, ⟨11, 1, 1⟩, ⟨21, 1, 1⟩], 0⟩) ∧
      ((∃ d ∈ [(⟨4, 1, 1⟩ : Diff), ⟨11, 1, 1⟩, ⟨21, 1, 1⟩],
          d.newStart - 1 <
            (⟨[], [], some [⟨4, 1, 1⟩, ⟨11, 1, 1⟩, ⟨21, 1, 1⟩], 0⟩ : ViewState).cursorRow) →
        (∃ d ∈ [(⟨4, 1, 1⟩ : Diff), ⟨11, 1, 1⟩, ⟨21, 1, 1⟩],
          d.newStart - 1 <
            (⟨[], [], some [⟨4, 1, 1⟩, ⟨11, 1, 1⟩, ⟨21, 1, 1⟩], 0⟩ : ViewState).cursorRow ∧
          (moveToPreviousDiff ⟨[], [], some [⟨4, 1, 1⟩, ⟨11, 1, 1⟩, ⟨21, 1, 1⟩], 0⟩).cursorRow =
            d.newStart - 1) ∧
        ∀ d ∈ [(⟨4, 1, 1⟩ : Diff), ⟨11, 1, 1⟩, ⟨21, 1, 1⟩],
          d.newStart - 1 <
            (⟨[], [], some [⟨4, 1, 1⟩, ⟨11, 1, 1⟩, ⟨21, 1, 1⟩], 0⟩ : ViewState).cursorRow →
          d.newStart - 1 ≤
            (moveToPreviousDiff ⟨[], [], some [⟨4, 1, 1⟩, ⟨11, 1, 1⟩, ⟨21, 1, 1⟩], 0⟩).cursorRow) ∧
      ([(⟨4, 1, 1⟩ : Diff), ⟨11, 1, 1⟩, ⟨21, 1, 1⟩] ≠ [] →
        (∀ d ∈ [(⟨4, 1, 1⟩ : Diff), ⟨11, 1, 1⟩, ⟨21, 1, 1⟩],
          ¬ d.newStart - 1 <
            (⟨[], [], some [⟨4, 1, 1⟩, ⟨11, 1, 1⟩, ⟨21, 1, 1⟩], 0⟩ : ViewState).cursorRow) →
        (∃ d ∈ [(⟨4, 1, 1⟩ : Diff), ⟨11, 1, 1⟩, ⟨21, 1, 1⟩],
          (moveToPreviousDiff ⟨[], [], some [⟨4, 1, 1⟩, ⟨11, 1, 1⟩, ⟨21, 1, 1⟩], 0⟩).cursorRow =
            d.newStart - 1) ∧
        ∀ d ∈ [(⟨4, 1, 1⟩ : Diff), ⟨11, 1, 1⟩, ⟨21, 1, 1⟩],
          d.newStart - 1 ≤
            (moveToPreviousDiff ⟨[], [], some [⟨4, 1, 1⟩, ⟨11, 1, 1⟩, ⟨21, 1, 1⟩], 0⟩).cursorRow)) :=
  ⟨⟨rfl, by decide⟩, c4_previous_navigation _ _ rfl (by decide)⟩

/-! ### C5: precondition short-circuit -/

/-- **C5.**  If any precondition fails (editor destroyed, falsy path, no
repository, repository loading, repository not present), `updateDiffs`
attempts no fetch, destroys and clears all existing decorations, and
returns (no error is possible: the embedding is a total function). -/
theorem c5_precondition_short_circuit (env : Env) (s : ViewState)
    (h : env.editorDestroyed = true ∨ pathFalsy env.path = true ∨ env.repository = none ∨
      (∃ r, env.repository = some r ∧ r.isLoading = true) ∨
      (∃ r, env.repository = some r ∧ r.isPresent = false)) :
    (updateDiffs env s).2 = false ∧
    (updateDiffs env s).1.markers = [] ∧
    (∀ m ∈ s.markers, m ∈ (updateDiffs env s).1.destroyedMarkers) ∧
    (updateDiffs env s).1 = removeDecorations s := by
  have hres : updateDiffs env s = (removeDecorations s, false) := by
    rcases h with h | h | h | ⟨r, hr, hld⟩ | ⟨r, hr, hp⟩
    · simp [updateDiffs, h]
    · simp [updateDiffs, h]
    · simp [updateDiffs, h]
    · simp [updateDiffs, hr, hld]
    · simp [updateDiffs, hr, hp]
  rw [hres]
  refine ⟨rfl, rfl, ?_, rfl⟩
  intro m hm
  simp only [removeDecorations, List.mem_append]
  exact Or.inr hm

/-- Witness for C5: the repository reports loading, the view holds one
marker; no fetch happens and the marker collection is emptied, the old
marker destroyed. -/
theorem c5_precondition_short_circuit_witness :
    ((⟨false, some ("a.txt"), some ⟨true, true, none⟩⟩ : Env).editorDestroyed = true ∨
      pathFalsy (⟨false, some ("a.txt"), some ⟨true, true, none⟩⟩ : Env).path = true ∨
      (⟨false, some ("a.txt"), some ⟨true, true, none⟩⟩ : Env).repository = none ∨
      (∃ r, (⟨false, some ("a.txt"), some ⟨true, true, none⟩⟩ : Env).repository = some r ∧
        r.isLoading = true) ∨
      (∃ r, (⟨false, some ("a.txt"), some ⟨true, true, none⟩⟩ : Env).repository = some r ∧
        r.isPresent = false)) ∧
    ((updateDiffs ⟨false, some ("a.txt"), some ⟨true, true, none⟩⟩
        ⟨[⟨0, 1, addedClass⟩], [], none, 0⟩).2 = false ∧
      (updateDiffs ⟨false, some ("a.txt"), some ⟨true, true, none⟩⟩
        ⟨[⟨0, 1, addedClass⟩], [], none, 0⟩).1.markers = [] ∧
      (∀ m ∈ (⟨[⟨0, 1, addedClass⟩], [], none, 0⟩ : ViewState).markers,
        m ∈ (updateDiffs ⟨false, some ("a.txt"), some ⟨true, true, none⟩⟩
          ⟨[⟨0, 1, addedClass⟩], [], none, 0⟩).1.destroyedMarkers) ∧
      (updateDiffs ⟨false, some ("a.txt"), some ⟨true, true, none⟩⟩
        ⟨[⟨0, 1, addedClass⟩], [], none, 0⟩).1 =
        removeDecorations ⟨[⟨0, 1, addedClass⟩], [], none, 0⟩) :=
  ⟨Or.inr (Or.inr (Or.inr (Or.inl ⟨⟨true, true, none⟩, rfl, rfl⟩))),
    c5_precondition_short_circuit ⟨false, some ("a.txt"), some ⟨true, true, none⟩⟩
      ⟨[⟨0, 1, addedClass⟩], [], none, 0⟩
      (Or.inr (Or.inr (Or.inr (Or.inl ⟨⟨true, true, none⟩, rfl, rfl⟩))))⟩

/-! ### C6: decoration sync invariants -/

lemma markerOf_klass_iff (d : Diff) (ho : 0 ≤ d.oldLines) (hn : 0 ≤ d.newLines)
    (hwf : ¬(d.oldLines = 0 ∧ d.newLines = 0)) :
    ((markerOf d).klass = addedClass ↔ (d.oldLines = 0 ∧ 0 < d.newLines)) ∧
    ((markerOf d).klass = removedClass ↔ (d.newLines = 0 ∧ 0 < d.oldLines)) ∧
    ((markerOf d).klass = modifiedClass ↔ (0 < d.oldLines ∧ 0 < d.newLines)) := by
  simp only [markerOf]
  split_ifs with h1 h2
  · exact ⟨iff_of_true rfl h1, iff_of_false (fun h => added_ne_removed h) (by omega),
      iff_of_false (fun h => added_ne_modified h) (by omega)⟩
  · exact ⟨iff_of_false (fun h => added_ne_removed h.symm) (by omega), iff_of_true rfl h2,
      iff_of_false (fun h => removed_ne_modified h) (by omega)⟩
  · exact ⟨iff_of_false (fun h => added_ne_modified h.symm) (by omega),
      iff_of_false (fun h => removed_ne_modified h.symm) (by omega),
      iff_of_true rfl (by omega)⟩

/-- **C6.**  After the sync step of `updateDiffs` (lines 154-166) with a
truthy patch, there is exactly one marker per hunk, every previously
tracked marker has been destroyed, and each marker's class matches its
hunk's classification; with a falsy patch the sync still runs and leaves
zero markers. -/
theorem c6_sync_invariants (s : ViewState) (fp : FilePatch)
    (hwf : ∀ h ∈ fp.hunks, 0 ≤ h.oldRowCount ∧ 0 ≤ h.newRowCount ∧
      ¬(h.oldRowCount = 0 ∧ h.newRowCount = 0)) :
    (updateDiffsPhase2 (some fp) s).markers.length = fp.hunks.length ∧
    (∀ m ∈ s.markers, m ∈ (updateDiffsPhase2 (some fp) s).destroyedMarkers) ∧
    (∀ (i : ℕ) (hi : i < fp.hunks.length)
      (hm : i < (updateDiffsPhase2 (some fp) s).markers.length),
      (((updateDiffsPhase2 (some fp) s).markers.get ⟨i, hm⟩).klass = addedClass ↔
        ((fp.hunks.get ⟨i, hi⟩).oldRowCount = 0 ∧ 0 < (fp.hunks.get ⟨i, hi⟩).newRowCount)) ∧
      (((updateDiffsPhase2 (some fp) s).markers.get ⟨i, hm⟩).klass = removedClass ↔
        ((fp.hunks.get ⟨i, hi⟩).newRowCount = 0 ∧ 0 < (fp.hunks.get ⟨i, hi⟩).oldRowCount)) ∧
      (((updateDiffsPhase2 (some fp) s).markers.get ⟨i, hm⟩).klass = modifiedClass ↔
        (0 < (fp.hunks.get ⟨i, hi⟩).oldRowCount ∧ 0 < (fp.hunks.get ⟨i, hi⟩).newRowCount))) ∧
    (∀ t : ViewState, (updateDiffsPhase2 none t).markers = []) := by
  have hmk : (updateDiffsPhase2 (some fp) s).markers =
      (fp.hunks.map (fun h => Diff.mk h.newStartRow h.oldRowCount h.newRowCount)).map
        markerOf := by
    simp [updateDiffsPhase2, addDecorations_eq, removeDecorations]
  have hdest : (updateDiffsPhase2 (some fp) s).destroyedMarkers =
      s.destroyedMarkers ++ s.markers := by
    simp [updateDiffsPhase2, addDecorations_eq, removeDecorations]
  refine ⟨?_, ?_, ?_, ?_⟩
  · rw [hmk]
    simp
  · intro m hm
    rw [hdest]
    simp only [List.mem_append]
    exact Or.inr hm
  · intro i hi hm
    have hget : (updateDiffsPhase2 (some fp) s).markers.get ⟨i, hm⟩ =
        markerOf (Diff.mk (fp.hunks.get ⟨i, hi⟩).newStartRow
          (fp.hunks.get ⟨i, hi⟩).oldRowCount (fp.hunks.get ⟨i, hi⟩).newRowCount) := by
      simp only [List.get_eq_getElem]
      rw [List.getElem_of_eq hmk hm, List.getElem_map, List.getElem_map]
    obtain ⟨ho, hn, hnz⟩ := hwf (fp.hunks.get ⟨i, hi⟩) (List.get_mem fp.hunks i hi)
    rw [hget]
    exact markerOf_klass_iff _ ho hn hnz
  · intro t
    simp [updateDiffsPhase2, removeDecorations]

/-- Witness for C6: one prior marker, one added hunk `{newStart: 3,
oldLines: 0, newLines: 2}`: the sync leaves exactly one marker, destroys
the prior one, and classes match. -/
theorem c6_sync_invariants_witness :
    (∀ h ∈ ([⟨3, 0, 2⟩] : List Hunk), 0 ≤ h.oldRowCount ∧ 0 ≤ h.newRowCount ∧
      ¬(h.oldRowCount = 0 ∧ h.newRowCount = 0)) ∧
    ((updateDiffsPhase2 (some ⟨[⟨3, 0, 2⟩]⟩)
        ⟨[⟨0, 1, modifiedClass⟩], [], none, 0⟩).markers.length =
      (⟨[⟨3, 0, 2⟩]⟩ : FilePatch).hunks.length ∧
    (∀ m ∈ (⟨[⟨0, 1, modifiedClass⟩], [], none, 0⟩ : ViewState).markers,
      m ∈ (updateDiffsPhase2 (some ⟨[⟨3, 0, 2⟩]⟩)
        ⟨[⟨0, 1, modifiedClass⟩], [], none, 0⟩).destroyedMarkers) ∧
    (∀ (i : ℕ) (hi : i < (⟨[⟨3, 0, 2⟩]⟩ : FilePatch).hunks.length)
      (hm : i < (updateDiffsPhase2 (some ⟨[⟨3, 0, 2⟩]⟩)
        ⟨[⟨0, 1, modifiedClass⟩], [], none, 0⟩).markers.length),
      (((updateDiffsPhase2 (some ⟨[⟨3, 0, 2⟩]⟩)
          ⟨[⟨0, 1, modifiedClass⟩], [], none, 0⟩).markers.get ⟨i, hm⟩).klass = addedClass ↔
        (((⟨[⟨3, 0, 2⟩]⟩ : FilePatch).hunks.get ⟨i, hi⟩).oldRowCount = 0 ∧
          0 < ((⟨[⟨3, 0, 2⟩]⟩ : FilePatch).hunks.get ⟨i, hi⟩).newRowCount)) ∧
      (((updateDiffsPhase2 (some ⟨[⟨3, 0, 2⟩]⟩)
          ⟨[⟨0, 1, modifiedClass⟩], [], none, 0⟩).markers.get ⟨i, hm⟩).klass = removedClass ↔
        (((⟨[⟨3, 0, 2⟩]⟩ : FilePatch).hunks.get ⟨i, hi⟩).newRowCount = 0 ∧
          0 < ((⟨[⟨3, 0, 2⟩]⟩ : FilePatch).hunks.get ⟨i, hi⟩).oldRowCount)) ∧
      (((updateDiffsPhase2 (some ⟨[⟨3, 0, 2⟩]⟩)
          ⟨[⟨0, 1, modifiedClass⟩], [], none, 0⟩).markers.get ⟨i, hm⟩).klass = modifiedClass ↔
        (0 < ((⟨[⟨3, 0, 2⟩]⟩ : FilePatch).hunks.get ⟨i, hi⟩).oldRowCount ∧
          0 < ((⟨[⟨3, 0, 2⟩]⟩ : FilePatch).hunks.get ⟨i, hi⟩).newRowCount))) ∧
    (∀ t : ViewState, (updateDiffsPhase2 none t).markers = [])) :=
  ⟨by decide,
    c6_sync_invariants ⟨[⟨0, 1, modifiedClass⟩], [], none, 0⟩ ⟨[⟨3, 0, 2⟩]⟩ (by decide)⟩

/-! ### C7: result application order

`updateDiffs` (lines 142-167) carries no recomputation token: after the
`await`, the continuation applies its fetch result unconditionally.  When
two runs overlap, whichever continuation runs last determines the final
decoration state — completion order, not issue order. -/

/-- **C7 counterexample.**  Run A (issued first) fetches the one-hunk patch
`{newStart: 1, oldLines: 1, newLines: 1}`; run B (issued later) fetches
`{newStart: 2, oldLines: 0, newLines: 1}` and its result is applied first.
When A's fetch then resolves, its continuation is applied as well and
changes the decoration state — A's result is not discarded, refuting the
claim's token discipline. -/
theorem c7_stale_result_counterexample :
    updateDiffsPhase2 (some ⟨[⟨1, 1, 1⟩]⟩)
        (updateDiffsPhase2 (some ⟨[⟨2, 0, 1⟩]⟩) ⟨[], [], none, 0⟩) ≠
      updateDiffsPhase2 (some ⟨[⟨2, 0, 1⟩]⟩) ⟨[], [], none, 0⟩ := by
  decide

/-- **C7 amended.**  Last completion wins: the decoration state after a
completed fetch is applied is fully determined by that fetch's result,
regardless of any result applied before it (so a stale fetch resolving
late overwrites the newer result instead of being discarded). -/
theorem c7_last_completion_wins (s : ViewState) (fp : Option FilePatch) :
    (updateDiffsPhase2 fp s).markers =
      (match fp with
       | some p => (p.hunks.map (fun h =>
           Diff.mk h.newStartRow h.oldRowCount h.newRowCount)).map markerOf
       | none => []) ∧
    (updateDiffsPhase2 fp s).diffs =
      (match fp with
       | some p => some (p.hunks.map (fun h =>
           Diff.mk h.newStartRow h.oldRowCount h.newRowCount))
       | none => s.diffs) := by
  cases fp with
  | none => simp [updateDiffsPhase2, removeDecorations]
  | some p => simp [updateDiffsPhase2, addDecorations_eq, removeDecorations]

/-! ### C8: trigger wiring and scheduling -/

/-- The three recomputation triggers of the constructor: the
`onDidStopChanging` subscription (line 12), the `onDidChangePath`
subscription (line 13), and an explicit `scheduleUpdate()` call
(line 56). -/
inductive Trigger where
  | contentSettled
  | pathChanged
  | explicitSchedule
deriving DecidableEq

/-- The scheduling state: `immediateId` is `this.immediateId` (`none`
while still `undefined`; the field survives `clearImmediate`), `queue`
holds the ids of `setImmediate` callbacks that are scheduled but have not
yet run, `nextId` is the next fresh callback id, and `directRuns` counts
the `updateDiffs` invocations started directly by an event callback. -/
structure SchedulerState where
  immediateId : Option Nat
  queue : List Nat
  nextId : Nat
  directRuns : Nat
deriving DecidableEq

/-- `cancelUpdate()` (lines 133-135): `clearImmediate(this.immediateId)`
removes that callback from the pending queue; a no-op when
`this.immediateId` is still `undefined` (JS `clearImmediate(undefined)`)
or the callback has already run.  The field itself is not reset. -/
def cancelUpdate (s : SchedulerState) : SchedulerState :=
  match s.immediateId with
  | some i => { s with queue := s.queue.filter (fun j => j != i) }
  | none => s

/-- `scheduleUpdate()` (lines 137-140): `cancelUpdate()` then
`this.immediateId = setImmediate(this.updateDiffs)`, which enqueues a
fresh callback. -/
def scheduleUpdate (s : SchedulerState) : SchedulerState :=
  let s1 := cancelUpdate s
  { s1 with
    immediateId := some s1.nextId
    queue := s1.queue ++ [s1.nextId]
    nextId := s1.nextId + 1 }

/-- How the constructor wires each trigger: `onDidStopChanging` and
`onDidChangePath` (lines 12-13) invoke `this.updateDiffs` directly —
they neither call `clearImmediate` nor go through `setImmediate` — while
an explicit call runs `scheduleUpdate()`. -/
def handleTrigger (t : Trigger) (s : SchedulerState) : SchedulerState :=
  match t with
  | .contentSettled => { s with directRuns := s.directRuns + 1 }
  | .pathChanged => { s with directRuns := s.directRuns + 1 }
  | .explicitSchedule => scheduleUpdate s

/-- **C8 counterexample.**  With one scheduled-but-not-yet-run
recomputation (callback id 0) pending, the buffer-content-settled trigger
neither cancels it (id 0 stays in the queue) nor defers the new
recomputation to the next idle turn (it starts `updateDiffs` directly),
refuting the claimed cancel-and-reschedule policy for that trigger. -/
theorem c8_trigger_counterexample :
    ¬ (0 ∉ (handleTrigger .contentSettled ⟨some 0, [0], 1, 0⟩).queue ∧
      (handleTrigger .contentSettled ⟨some 0, [0], 1, 0⟩).directRuns =
        (⟨some 0, [0], 1, 0⟩ : SchedulerState).directRuns) := by
  decide

/-- **C8 amended.**  Only an explicit `scheduleUpdate()` call cancels the
previously scheduled recomputation and schedules exactly one fresh
`setImmediate` callback without running anything directly; the
content-settled and path-changed triggers leave the scheduled queue
untouched and start a recomputation directly. -/
theorem c8_scheduling_amended (s : SchedulerState)
    (hq : ∀ j ∈ s.queue, j < s.nextId)
    (hid : ∀ i, s.immediateId = some i → i < s.nextId) :
    ((handleTrigger .explicitSchedule s).queue =
        (match s.immediateId with
         | some i => s.queue.filter (fun j => j != i)
         | none => s.queue) ++ [s.nextId] ∧
      (∀ i, s.immediateId = some i → i ∉ (handleTrigger .explicitSchedule s).queue) ∧
      s.nextId ∉ s.queue ∧
      (handleTrigger .explicitSchedule s).directRuns = s.directRuns) ∧
    ((handleTrigger .contentSettled s).queue = s.queue ∧
      (handleTrigger .contentSettled s).directRuns = s.directRuns + 1) ∧
    ((handleTrigger .pathChanged s).queue = s.queue ∧
      (handleTrigger .pathChanged s).directRuns = s.directRuns + 1) := by
  refine ⟨⟨?_, ?_, ?_, ?_⟩, ⟨rfl, rfl⟩, ⟨rfl, rfl⟩⟩
  · cases h : s.immediateId <;>
      simp [handleTrigger, scheduleUpdate, cancelUpdate, h]
  · intro i hi
    have hlt : i < s.nextId := hid i hi
    intro hmem
    simp [handleTrigger, scheduleUpdate, cancelUpdate, hi] at hmem
    omega
  · intro hmem
    have := hq _ hmem
    omega
  · cases h : s.immediateId <;>
      simp [handleTrigger, scheduleUpdate, cancelUpdate, h]

/-- Witness for C8 amended: one pending scheduled callback with id 0,
next fresh id 1. -/
theorem c8_scheduling_amended_witness :
    ((∀ j ∈ (⟨some 0, [0], 1, 0⟩ : SchedulerState).queue,
        j < (⟨some 0, [0], 1, 0⟩ : SchedulerState).nextId) ∧
      (∀ i, (⟨some 0, [0], 1, 0⟩ : SchedulerState).immediateId = some i →
        i < (⟨some 0, [0], 1, 0⟩ : SchedulerState).nextId)) ∧
    (((handleTrigger .explicitSchedule ⟨some 0, [0], 1, 0⟩).queue =
        (match (⟨some 0, [0], 1, 0⟩ : SchedulerState).immediateId with
         | some i => (⟨some 0, [0], 1, 0⟩ : SchedulerState).queue.filter (fun j => j != i)
         | none => (⟨some 0, [0], 1, 0⟩ : SchedulerState).queue) ++
          [(⟨some 0, [0], 1, 0⟩ : SchedulerState).nextId] ∧
      (∀ i, (⟨some 0, [0], 1, 0⟩ : SchedulerState).immediateId = some i →
        i ∉ (handleTrigger .explicitSchedule ⟨some 0, [0], 1, 0⟩).queue) ∧
      (⟨some 0, [0], 1, 0⟩ : SchedulerState).nextId ∉
        (⟨some 0, [0], 1, 0⟩ : SchedulerState).queue ∧
      (handleTrigger .explicitSchedule ⟨some 0, [0], 1, 0⟩).directRuns =
        (⟨some 0, [0], 1, 0⟩ : SchedulerState).directRuns) ∧
    ((handleTrigger .contentSettled ⟨some 0, [0], 1, 0⟩).queue =
        (⟨some 0, [0], 1, 0⟩ : SchedulerState).queue ∧
      (handleTrigger .contentSettled ⟨some 0, [0], 1, 0⟩).directRuns =
        (⟨some 0, [0], 1, 0⟩ : SchedulerState).directRuns + 1) ∧
    ((handleTrigger .pathChanged ⟨some 0, [0], 1, 0⟩).queue =
        (⟨some 0, [0], 1, 0⟩ : SchedulerState).queue ∧
      (handleTrigger .pathChanged ⟨some 0, [0], 1, 0⟩).directRuns =
        (⟨some 0, [0], 1, 0⟩ : SchedulerState).directRuns + 1)) :=
  ⟨⟨by decide, fun i hi => by injection hi with h; subst h; decide⟩,
    c8_scheduling_amended ⟨some 0, [0], 1, 0⟩ (by decide)
      (fun i hi => by injection hi with h; subst h; decide)⟩

/-! ### C9: completion after destruction -/

/-- **C9 (code bug).**  The `onDidDestroy` teardown (lines 15-21) cancels
the scheduled update and removes all decorations, but the continuation of
an in-flight `updateDiffs` (lines 154-166) re-checks nothing after its
`await`: when the fetch resolves with a truthy patch after destruction,
the continuation re-creates markers on the destroyed editor instead of
being a no-op.  Failing input: a destroyed view whose pending fetch
resolves to the one-hunk patch `{newStart: 3, oldLines: 0, newLines: 1}`. -/
theorem c9_post_destroy_completion_not_noop :
    (updateDiffsPhase2 (some ⟨[⟨3, 0, 1⟩]⟩)
        (onEditorDestroyed ⟨[⟨0, 1, addedClass⟩], [], some [⟨1, 0, 1⟩], 0⟩)).markers ≠ [] ∧
    updateDiffsPhase2 (some ⟨[⟨3, 0, 1⟩]⟩)
        (onEditorDestroyed ⟨[⟨0, 1, addedClass⟩], [], some [⟨1, 0, 1⟩], 0⟩) ≠
      onEditorDestroyed ⟨[⟨0, 1, addedClass⟩], [], some [⟨1, 0, 1⟩], 0⟩ := by
  exact ⟨by decide, by decide⟩

/-! ### C10: falsy fetch result keeps the old hunk sequence -/

lemma moveToLineNumber_cursorRow (t : Option Int) (s1 s2 : ViewState)
    (h : s1.cursorRow = s2.cursorRow) :
    (moveToLineNumber t s1).cursorRow = (moveToLineNumber t s2).cursorRow := by
  cases t with
  | none => exact h
  | some n =>
    by_cases h0 : 0 ≤ n <;> simp [moveToLineNumber, h0, h]

/-- **C10.**  When the fetch resolves falsy, the continuation removes all
markers but leaves `this.diffs` (and the cursor) unchanged, so the
next/previous-hunk commands still navigate over the previous, now
undecorated hunk sequence: their cursor results agree with what they
would have been before the sync. -/
theorem c10_falsy_patch_keeps_diffs (s : ViewState) :
    (updateDiffsPhase2 none s).markers = [] ∧
    (updateDiffsPhase2 none s).diffs = s.diffs ∧
    (updateDiffsPhase2 none s).cursorRow = s.cursorRow ∧
    (moveToNextDiff (updateDiffsPhase2 none s)).cursorRow =
      (moveToNextDiff s).cursorRow ∧
    (moveToPreviousDiff (updateDiffsPhase2 none s)).cursorRow =
      (moveToPreviousDiff s).cursorRow := by
  have hdiffs : (updateDiffsPhase2 none s).diffs = s.diffs := rfl
  have hcur : (updateDiffsPhase2 none s).cursorRow = s.cursorRow := rfl
  refine ⟨rfl, hdiffs, hcur, ?_, ?_⟩
  · cases hd : s.diffs with
    | none =>
      rw [show moveToNextDiff (updateDiffsPhase2 none s) = updateDiffsPhase2 none s by
          simp [moveToNextDiff, hdiffs.trans hd],
        show moveToNextDiff s = s by simp [moveToNextDiff, hd]]
      exact hcur
    | some l =>
      rw [moveToNextDiff_eval (updateDiffsPhase2 none s) l (hdiffs.trans hd),
        moveToNextDiff_eval s l hd, hcur]
      exact moveToLineNumber_cursorRow _ _ _ hcur
  · cases hd : s.diffs with
    | none =>
      rw [show moveToPreviousDiff (updateDiffsPhase2 none s) = updateDiffsPhase2 none s by
          simp [moveToPreviousDiff, hdiffs.trans hd],
        show moveToPreviousDiff s = s by simp [moveToPreviousDiff, hd]]
      exact hcur
    | some l =>
      rw [moveToPreviousDiff_eval (updateDiffsPhase2 none s) l (hdiffs.trans hd),
        moveToPreviousDiff_eval s l hd, hcur]
      exact moveToLineNumber_cursorRow _ _ _ hcur
